import Mathlib

/-!
Shallow embedding of the voldiscount curve-filling core.

Source files embedded here:
  * `calibration/interpolation.py` — the three operations `interpolate_rate`,
    `extrapolate_early`, `extrapolate_late` over a term-structure table;
  * `config/config.py` — the module-level `DEFAULT_PARAMS` dictionary.

Modelling decisions:
  * Floating-point numbers are modelled as rationals (`Rat`); integer days as
    `Int`.  Where the Python code would produce IEEE infinities (division by a
    zero days-difference) the rational model is stated only up to the value of
    the denominator, never through the division itself.
  * A pandas row is a fixed-shape record.  The two optional columns
    `reference_price` and `forward_ratio` are `Option (Option Rat)`: the outer
    layer is column presence (the code's `'reference_price' in row` test), the
    inner layer distinguishes a null/NaN cell (`Option.none`) from a number.
  * Python's two-argument `max(x, y)` returns `y` exactly when `y > x`; every
    comparison against NaN is false.  `pymax` reproduces this.
  * The extrapolators return `Option (List Row)`: `Option.none` models an
    exception escaping the call (`KeyError` on a removed threshold key,
    `TypeError` on comparing `len(df)` with a non-numeric threshold, or
    `IndexError` on `iloc[1]` of a table that passed a sub-2 threshold).
  * `sort_values('days')` is modelled by an insertion sort on the `days`
    column; no claim depends on the order of rows with equal `days`.
-/

namespace VolDiscount

/-- Value stored in the Python configuration dictionary: an int, a float
(modelled as a rational), a bool, a string, or `None`. -/
inductive PVal where
  | int : Int → PVal
  | num : Rat → PVal
  | bool : Bool → PVal
  | str : String → PVal
  | none : PVal
deriving DecidableEq, Repr

/-- A Python dict with string keys, modelled as an association list in which
the *last* binding of a key is the one in force (so a dict literal with a
repeated key, and `d.update(kw)`, both behave as in Python). -/
abbrev Params : Type := List (String × PVal)

/-- Lookup of the binding in force for a key: the last matching entry. -/
def dictGet : Params → String → Option PVal
  | [], _ => Option.none
  | p :: rest, k =>
    match dictGet rest k with
    | Option.some v => Option.some v
    | Option.none => if p.1 = k then Option.some p.2 else Option.none

/-- Python's `dict.copy()`: a fresh value equal to the original. -/
def dictCopy (d : Params) : Params := d

/-- Python's `base.update(kw)` seen as a value: every key of `kw` overrides
`base`, other keys of `base` survive. -/
def dictUpdate (base kw : Params) : Params := base ++ kw

/-- Embeds `DEFAULT_PARAMS` of `config/config.py`, entries in source order
(the two duplicated literal keys `max_strike_diff_pct` and
`min_option_price` are kept; as in Python, the later entry is in force). -/
def DEFAULT_PARAMS : Params :=
  [ ("initial_rate", PVal.num 0.05),
    ("min_rate", PVal.num 0.0),
    ("max_rate", PVal.num 0.2),
    ("fallback_growth", PVal.num 0.03),
    ("consider_volume", PVal.bool false),
    ("reference_date", PVal.none),
    ("monthlies", PVal.bool true),
    ("option_type", PVal.str "call"),
    ("q", PVal.num 0.0),
    ("max_iterations", PVal.int 50),
    ("max_strike_diff_pct", PVal.num 0.05),
    ("min_option_price", PVal.num 0.0),
    ("min_options_per_expiry", PVal.int 2),
    ("volatility_lower_bound", PVal.num 0.001),
    ("volatility_upper_bound", PVal.int 10),
    ("vol_lb_scalar", PVal.num 0.5),
    ("vol_ub_scalar", PVal.num 1.5),
    ("min_days", PVal.int 7),
    ("min_volume", PVal.int 0),
    ("wait_time", PVal.num 0.5),
    ("forward_prices", PVal.none),
    ("max_strike_diff_pct", PVal.num 0.5),
    ("min_option_price", PVal.num 0.0),
    ("min_pair_volume", PVal.int 0),
    ("best_pair_only", PVal.bool false),
    ("close_strike_min_pairs", PVal.int 3),
    ("debug_threshold", PVal.num 0.0),
    ("min_forward_ratio", PVal.num 0.5),
    ("max_forward_ratio", PVal.num 2.0),
    ("min_price", PVal.num 0.0),
    ("debug", PVal.bool true),
    ("save_output", PVal.bool false),
    ("skip_iv_calculation", PVal.bool true),
    ("use_forwards", PVal.bool true),
    ("calibration_method", PVal.str "direct"),
    ("min_int_rate", PVal.num (-0.20)),
    ("max_int_rate", PVal.num 1.00) ]

/-- Models Python's comparison `len(df) < v` for a configuration value `v`:
ints, floats and bools are comparable with an int (`True` counts as 1,
`False` as 0); comparing with a string or `None` raises `TypeError`,
modelled as `Option.none`. -/
def cmpRat : PVal → Option Rat
  | PVal.int n => Option.some (n : Rat)
  | PVal.num q => Option.some q
  | PVal.bool b => Option.some (if b then 1 else 0)
  | PVal.str _ => Option.none
  | PVal.none => Option.none

/-- One row of the term-structure DataFrame (§3 of the data contract).
`reference_price` and `forward_ratio` are optional columns: the outer
`Option` is presence of the column on the row, the inner `Option` is
null/NaN (`Option.none`) versus an actual number. -/
structure Row where
  expiry_date : Int
  days : Int
  years : Rat
  discount_rate : Rat
  method : String
  put_strike : Option Rat
  call_strike : Option Rat
  put_price : Option Rat
  call_price : Option Rat
  put_iv : Option Rat
  call_iv : Option Rat
  iv_diff : Option Rat
  reference_price : Option (Option Rat)
  forward_ratio : Option (Option Rat)
deriving DecidableEq, Repr

/-- Insert a row into a list kept in ascending `days` order. -/
def insertAsc (r : Row) : List Row → List Row
  | [] => [r]
  | x :: xs => if r.days ≤ x.days then r :: x :: xs else x :: insertAsc r xs

/-- Embeds `df.sort_values('days')` (ascending). -/
def sortDaysAsc : List Row → List Row
  | [] => []
  | x :: xs => insertAsc x (sortDaysAsc xs)

/-- Insert a row into a list kept in descending `days` order. -/
def insertDesc (r : Row) : List Row → List Row
  | [] => [r]
  | x :: xs => if x.days ≤ r.days then r :: x :: xs else x :: insertDesc r xs

/-- Embeds `df.sort_values('days', ascending=False)` (descending). -/
def sortDaysDesc : List Row → List Row
  | [] => []
  | x :: xs => insertDesc x (sortDaysDesc xs)

/-- Python's two-argument `max(x, y)` on possibly-NaN floats (`Option.none`
is NaN): the result is `y` exactly when the comparison `y > x` holds, and
every comparison involving NaN is false.  Hence `max(x, NaN) = x` while
`max(NaN, y) = NaN`. -/
def pymax : Option Rat → Option Rat → Option Rat
  | Option.some a, Option.some b => Option.some (max a b)
  | Option.some a, Option.none => Option.some a
  | Option.none, _ => Option.none

/-- Embeds lines 44–51 of `interpolation.py`: interpolate an optional column
between the `before` and `after` rows.  The column value is produced only if
the column is present on both rows (the `in` tests of lines 47 and 50); a
null/NaN cell then propagates through the arithmetic as NaN. -/
def interpOptField (b a : Option (Option Rat)) (f : Rat) : Option (Option Rat) :=
  match b, a with
  | Option.some bv, Option.some av =>
    Option.some
      (match bv, av with
       | Option.some x, Option.some y => Option.some (x + f * (y - x))
       | _, _ => Option.none)
  | _, _ => Option.none

/-- Embeds lines 122–135 of `interpolation.py`: backward projection of an
optional column from the `first` row, floored by `max(0.0, ·)`.  Present only
when the column is present on both anchor rows; a NaN projection is turned
into `0` by Python's `max(0.0, NaN)`. -/
def earlyOptField (f s : Option (Option Rat)) (daysDiff : Rat) (firstDays days : Int) :
    Option (Option Rat) :=
  match f, s with
  | Option.some fv, Option.some sv =>
    Option.some
      (pymax (Option.some 0)
        (match fv, sv with
         | Option.some x, Option.some y =>
           Option.some (x - ((firstDays - days : Int) : Rat) * ((y - x) / daysDiff))
         | _, _ => Option.none))
  | _, _ => Option.none

/-- Embeds lines 207–221 of `interpolation.py`: forward projection of an
optional column from the `last` row, floored by `max(last value, ·)`.
Present only when the column is present on both anchor rows; a NaN
projection leaves the last observed value in place, and a NaN last value
stays NaN. -/
def lateOptField (l s : Option (Option Rat)) (daysDiff : Rat) (lastDays days : Int) :
    Option (Option Rat) :=
  match l, s with
  | Option.some lv, Option.some sv =>
    Option.some
      (pymax lv
        (match lv, sv with
         | Option.some x, Option.some y =>
           Option.some (x + ((days - lastDays : Int) : Rat) * ((x - y) / daysDiff))
         | _, _ => Option.none))
  | _, _ => Option.none

/-- Embeds `interpolate_rate` (lines 5–80 of `interpolation.py`): select the
closest row strictly below the target `days` and the closest row strictly
above, interpolate linearly between them, and append the synthesized row; if
either strict partition is empty, return the table unchanged. -/
def interpolate_rate (df : List Row) (expiry_date : Int) (days : Int) (years : Rat) :
    List Row :=
  match sortDaysDesc (df.filter (fun r => r.days < days)),
        sortDaysAsc (df.filter (fun r => days < r.days)) with
  | [], _ => df
  | _ :: _, [] => df
  | before :: _, after :: _ =>
    let days_frac : Rat :=
      ((days - before.days : Int) : Rat) / ((after.days - before.days : Int) : Rat)
    let rate : Rat :=
      before.discount_rate + days_frac * (after.discount_rate - before.discount_rate)
    df ++ [{ expiry_date := expiry_date, days := days, years := years,
             discount_rate := rate, method := "interpolated",
             put_strike := Option.none, call_strike := Option.none,
             put_price := Option.none, call_price := Option.none,
             put_iv := Option.none, call_iv := Option.none, iv_diff := Option.none,
             reference_price :=
               interpOptField before.reference_price after.reference_price days_frac,
             forward_ratio :=
               interpOptField before.forward_ratio after.forward_ratio days_frac }]

/-- Embeds `extrapolate_early` (lines 82–164 of `interpolation.py`), with the
module-level defaults dictionary passed explicitly (the published entry point
fixes it to `DEFAULT_PARAMS`).  `Option.none` models an exception escaping
the call: `KeyError` when the threshold key is absent, `TypeError` when
`len(df)` is compared with a non-numeric threshold, `IndexError` when
`iloc[1]` is reached on a table of fewer than two rows. -/
def extrapolate_early_with (defaults kwargs : Params) (df : List Row)
    (expiry_date : Int) (days : Int) (years : Rat) : Option (List Row) :=
  let params : Params := dictUpdate (dictCopy defaults) kwargs
  match dictGet params "min_options_per_expiry" with
  | Option.none => Option.none
  | Option.some v =>
    match cmpRat v with
    | Option.none => Option.none
    | Option.some m =>
      if ((df.length : Nat) : Rat) < m then Option.some df
      else
        match sortDaysAsc df with
        | first :: second :: _ =>
          let days_diff : Rat := ((second.days - first.days : Int) : Rat)
          let daily_rate_change : Rat :=
            (second.discount_rate - first.discount_rate) / days_diff
          let extrapolated_rate : Rat :=
            max 0 (first.discount_rate -
              ((first.days - days : Int) : Rat) * daily_rate_change)
          Option.some (df ++
            [{ expiry_date := expiry_date, days := days, years := years,
               discount_rate := extrapolated_rate, method := "extrapolated",
               put_strike := Option.none, call_strike := Option.none,
               put_price := Option.none, call_price := Option.none,
               put_iv := Option.none, call_iv := Option.none, iv_diff := Option.none,
               reference_price :=
                 earlyOptField first.reference_price second.reference_price
                   days_diff first.days days,
               forward_ratio :=
                 earlyOptField first.forward_ratio second.forward_ratio
                   days_diff first.days days }])
        | _ => Option.none

/-- The published `extrapolate_early`, reading the module-level
`DEFAULT_PARAMS`. -/
def extrapolate_early (kwargs : Params) (df : List Row) (expiry_date : Int)
    (days : Int) (years : Rat) : Option (List Row) :=
  extrapolate_early_with DEFAULT_PARAMS kwargs df expiry_date days years

/-- Embeds `extrapolate_late` (lines 166–250 of `interpolation.py`), with the
defaults dictionary passed explicitly; `Option.none` models an escaping
exception exactly as for `extrapolate_early_with`. -/
def extrapolate_late_with (defaults kwargs : Params) (df : List Row)
    (expiry_date : Int) (days : Int) (years : Rat) : Option (List Row) :=
  let params : Params := dictUpdate (dictCopy defaults) kwargs
  match dictGet params "min_options_per_expiry" with
  | Option.none => Option.none
  | Option.some v =>
    match cmpRat v with
    | Option.none => Option.none
    | Option.some m =>
      if ((df.length : Nat) : Rat) < m then Option.some df
      else
        match sortDaysDesc df with
        | last :: second_last :: _ =>
          let days_diff : Rat := ((last.days - second_last.days : Int) : Rat)
          let daily_rate_change : Rat :=
            (last.discount_rate - second_last.discount_rate) / days_diff
          let extrapolated_rate : Rat :=
            max 0 (min 0.2 (last.discount_rate +
              ((days - last.days : Int) : Rat) * daily_rate_change))
          Option.some (df ++
            [{ expiry_date := expiry_date, days := days, years := years,
               discount_rate := extrapolated_rate, method := "extrapolated",
               put_strike := Option.none, call_strike := Option.none,
               put_price := Option.none, call_price := Option.none,
               put_iv := Option.none, call_iv := Option.none, iv_diff := Option.none,
               reference_price :=
                 lateOptField last.reference_price second_last.reference_price
                   days_diff last.days days,
               forward_ratio :=
                 lateOptField last.forward_ratio second_last.forward_ratio
                   days_diff last.days days }])
        | _ => Option.none

/-- The published `extrapolate_late`, reading the module-level
`DEFAULT_PARAMS`. -/
def extrapolate_late (kwargs : Params) (df : List Row) (expiry_date : Int)
    (days : Int) (years : Rat) : Option (List Row) :=
  extrapolate_late_with DEFAULT_PARAMS kwargs df expiry_date days years

/-- The effective threshold an extrapolator compares `len(df)` against:
lookup of `min_options_per_expiry` in the defaults overlaid with the
caller's overrides, coerced for the `<` comparison. -/
def effMinOptions (kwargs : Params) : Option Rat :=
  (dictGet (dictUpdate (dictCopy DEFAULT_PARAMS) kwargs)
    "min_options_per_expiry").bind cmpRat

/-- The denominator of line 41 of `interpolation.py`
(`after['days'] - before['days']`), observed on the rows `interpolate_rate`
selects; `Option.none` when a strict partition is empty. -/
def interpAnchorGap (df : List Row) (days : Int) : Option Int :=
  match sortDaysDesc (df.filter (fun r => r.days < days)),
        sortDaysAsc (df.filter (fun r => days < r.days)) with
  | before :: _, after :: _ => Option.some (after.days - before.days)
  | _, _ => Option.none

/-- The denominator of line 115 of `interpolation.py`
(`second['days'] - first['days']`), observed on the rows `extrapolate_early`
selects; `Option.none` when the table has fewer than two rows. -/
def earlyAnchorGap (df : List Row) : Option Int :=
  match sortDaysAsc df with
  | first :: second :: _ => Option.some (second.days - first.days)
  | _ => Option.none

/-- The denominator of line 200 of `interpolation.py`
(`last['days'] - second_last['days']`), observed on the rows
`extrapolate_late` selects; `Option.none` when the table has fewer than two
rows. -/
def lateAnchorGap (df : List Row) : Option Int :=
  match sortDaysDesc df with
  | last :: second_last :: _ => Option.some (last.days - second_last.days)
  | _ => Option.none

/-- The interpreter state the extrapolators can observe and mutate: the
module-level `DEFAULT_PARAMS` dictionary object. -/
structure ConfigState where
  defaults : Params
deriving DecidableEq

/-- One `extrapolate_early` call as a state transition.  Line 103 copies the
module dictionary (`params = DEFAULT_PARAMS.copy()`) and line 104 updates
only the copy, so the module state is returned unchanged next to the
result. -/
def extrapolate_early_call (st : ConfigState) (kwargs : Params) (df : List Row)
    (expiry_date : Int) (days : Int) (years : Rat) :
    Option (List Row) × ConfigState :=
  (extrapolate_early_with st.defaults kwargs df expiry_date days years, st)

/-- One `extrapolate_late` call as a state transition (lines 188–189 copy
then update the copy, as in `extrapolate_early`). -/
def extrapolate_late_call (st : ConfigState) (kwargs : Params) (df : List Row)
    (expiry_date : Int) (days : Int) (years : Rat) :
    Option (List Row) × ConfigState :=
  (extrapolate_late_with st.defaults kwargs df expiry_date days years, st)

/-- Arguments of one extrapolator call in a call sequence. -/
structure ExtrapCall where
  early : Bool
  kwargs : Params
  df : List Row
  expiry_date : Int
  days : Int
  years : Rat

/-- Run one call of a sequence against the current module state. -/
def applyCall (st : ConfigState) (c : ExtrapCall) : Option (List Row) × ConfigState :=
  if c.early then
    extrapolate_early_call st c.kwargs c.df c.expiry_date c.days c.years
  else
    extrapolate_late_call st c.kwargs c.df c.expiry_date c.days c.years

/-- The module state after a sequence of extrapolator calls. -/
def runCalls (st : ConfigState) : List ExtrapCall → ConfigState
  | [] => st
  | c :: cs => runCalls (applyCall st c).2 cs

/-! Support lemmas: membership, sortedness and length of the two sorts, and
lookup through `dictUpdate`. -/

theorem mem_insertAsc {a r : Row} {l : List Row} :
    a ∈ insertAsc r l ↔ a = r ∨ a ∈ l := by
  induction l with
  | nil => simp [insertAsc]
  | cons x xs ih =>
    by_cases h : r.days ≤ x.days
    · simp [insertAsc, h]
    · simp only [insertAsc, if_neg h, List.mem_cons, ih]
      tauto

theorem mem_sortDaysAsc {a : Row} {l : List Row} : a ∈ sortDaysAsc l ↔ a ∈ l := by
  induction l with
  | nil => simp [sortDaysAsc]
  | cons x xs ih => simp [sortDaysAsc, mem_insertAsc, ih]

theorem mem_insertDesc {a r : Row} {l : List Row} :
    a ∈ insertDesc r l ↔ a = r ∨ a ∈ l := by
  induction l with
  | nil => simp [insertDesc]
  | cons x xs ih =>
    by_cases h : x.days ≤ r.days
    · simp [insertDesc, h]
    · simp only [insertDesc, if_neg h, List.mem_cons, ih]
      tauto

theorem mem_sortDaysDesc {a : Row} {l : List Row} : a ∈ sortDaysDesc l ↔ a ∈ l := by
  induction l with
  | nil => simp [sortDaysDesc]
  | cons x xs ih => simp [sortDaysDesc, mem_insertDesc, ih]

theorem pairwise_insertAsc {r : Row} {l : List Row}
    (h : l.Pairwise (fun x y => x.days ≤ y.days)) :
    (insertAsc r l).Pairwise (fun x y => x.days ≤ y.days) := by
  induction l with
  | nil => simp [insertAsc]
  | cons x xs ih =>
    rcases List.pairwise_cons.mp h with ⟨hx, hxs⟩
    by_cases hr : r.days ≤ x.days
    · rw [insertAsc, if_pos hr]
      refine List.pairwise_cons.mpr ⟨?_, h⟩
      intro b hb
      rcases List.mem_cons.mp hb with rfl | hb'
      · exact hr
      · exact hr.trans (hx b hb')
    · rw [insertAsc, if_neg hr]
      refine List.pairwise_cons.mpr ⟨?_, ih hxs⟩
      intro b hb
      rcases mem_insertAsc.mp hb with rfl | hb'
      · exact le_of_lt (not_le.mp hr)
      · exact hx b hb'

theorem pairwise_sortDaysAsc (l : List Row) :
    (sortDaysAsc l).Pairwise (fun x y => x.days ≤ y.days) := by
  induction l with
  | nil => simp [sortDaysAsc]
  | cons x xs ih => exact pairwise_insertAsc ih

theorem pairwise_insertDesc {r : Row} {l : List Row}
    (h : l.Pairwise (fun x y => y.days ≤ x.days)) :
    (insertDesc r l).Pairwise (fun x y => y.days ≤ x.days) := by
  induction l with
  | nil => simp [insertDesc]
  | cons x xs ih =>
    rcases List.pairwise_cons.mp h with ⟨hx, hxs⟩
    by_cases hr : x.days ≤ r.days
    · rw [insertDesc, if_pos hr]
      refine List.pairwise_cons.mpr ⟨?_, h⟩
      intro b hb
      rcases List.mem_cons.mp hb with rfl | hb'
      · exact hr
      · exact (hx b hb').trans hr
    · rw [insertDesc, if_neg hr]
      refine List.pairwise_cons.mpr ⟨?_, ih hxs⟩
      intro b hb
      rcases mem_insertDesc.mp hb with rfl | hb'
      · exact le_of_lt (not_le.mp hr)
      · exact hx b hb'

theorem pairwise_sortDaysDesc (l : List Row) :
    (sortDaysDesc l).Pairwise (fun x y => y.days ≤ x.days) := by
  induction l with
  | nil => simp [sortDaysDesc]
  | cons x xs ih => exact pairwise_insertDesc ih

theorem length_insertAsc (r : Row) (l : List Row) :
    (insertAsc r l).length = l.length + 1 := by
  induction l with
  | nil => simp [insertAsc]
  | cons x xs ih =>
    by_cases h : r.days ≤ x.days
    · simp [insertAsc, h]
    · simp [insertAsc, h, ih]

theorem length_sortDaysAsc (l : List Row) : (sortDaysAsc l).length = l.length := by
  induction l with
  | nil => rfl
  | cons x xs ih => simp [sortDaysAsc, length_insertAsc, ih]

theorem length_insertDesc (r : Row) (l : List Row) :
    (insertDesc r l).length = l.length + 1 := by
  induction l with
  | nil => simp [insertDesc]
  | cons x xs ih =>
    by_cases h : x.days ≤ r.days
    · simp [insertDesc, h]
    · simp [insertDesc, h, ih]

theorem length_sortDaysDesc (l : List Row) : (sortDaysDesc l).length = l.length := by
  induction l with
  | nil => rfl
  | cons x xs ih => simp [sortDaysDesc, length_insertDesc, ih]

theorem sortDaysAsc_head_min {l : List Row} {b : Row} {t : List Row}
    (h : sortDaysAsc l = b :: t) : ∀ r ∈ l, b.days ≤ r.days := by
  intro r hr
  have hm : r ∈ b :: t := h ▸ mem_sortDaysAsc.mpr hr
  rcases List.mem_cons.mp hm with rfl | ht
  · exact le_refl _
  · have hp := pairwise_sortDaysAsc l
    rw [h] at hp
    exact (List.pairwise_cons.mp hp).1 r ht

theorem sortDaysDesc_head_max {l : List Row} {b : Row} {t : List Row}
    (h : sortDaysDesc l = b :: t) : ∀ r ∈ l, r.days ≤ b.days := by
  intro r hr
  have hm : r ∈ b :: t := h ▸ mem_sortDaysDesc.mpr hr
  rcases List.mem_cons.mp hm with rfl | ht
  · exact le_refl _
  · have hp := pairwise_sortDaysDesc l
    rw [h] at hp
    exact (List.pairwise_cons.mp hp).1 r ht

theorem interp_result {df : List Row} {e days : Int} {y : Rat} {b a : Row}
    {bt at' : List Row}
    (hb : sortDaysDesc (df.filter (fun r => r.days < days)) = b :: bt)
    (ha : sortDaysAsc (df.filter (fun r => days < r.days)) = a :: at') :
    ∃ nr : Row,
      interpolate_rate df e days y = df ++ [nr] ∧
      nr.discount_rate = b.discount_rate +
        ((days - b.days : Int) : Rat) / ((a.days - b.days : Int) : Rat) *
          (a.discount_rate - b.discount_rate) ∧
      nr.reference_price = interpOptField b.reference_price a.reference_price
        (((days - b.days : Int) : Rat) / ((a.days - b.days : Int) : Rat)) ∧
      nr.forward_ratio = interpOptField b.forward_ratio a.forward_ratio
        (((days - b.days : Int) : Rat) / ((a.days - b.days : Int) : Rat)) := by
  simp only [interpolate_rate, hb, ha]
  exact ⟨_, rfl, rfl, rfl, rfl⟩

theorem early_result {kwargs : Params} {df : List Row} {e days : Int} {y : Rat}
    {m : Rat} {first second : Row} {rest : List Row}
    (hm : effMinOptions kwargs = Option.some m)
    (hlen : ¬ (((df.length : Nat) : Rat) < m))
    (hs : sortDaysAsc df = first :: second :: rest) :
    ∃ nr : Row,
      extrapolate_early kwargs df e days y = Option.some (df ++ [nr]) ∧
      nr.discount_rate = max 0 (first.discount_rate -
        ((first.days - days : Int) : Rat) *
          ((second.discount_rate - first.discount_rate) /
            ((second.days - first.days : Int) : Rat))) ∧
      nr.reference_price = earlyOptField first.reference_price second.reference_price
        ((second.days - first.days : Int) : Rat) first.days days ∧
      nr.forward_ratio = earlyOptField first.forward_ratio second.forward_ratio
        ((second.days - first.days : Int) : Rat) first.days days := by
  rw [effMinOptions] at hm
  obtain ⟨v, hv, hc⟩ := Option.bind_eq_some.mp hm
  simp only [extrapolate_early, extrapolate_early_with, hv, hc, if_neg hlen, hs]
  exact ⟨_, rfl, rfl, rfl, rfl⟩

theorem late_result {kwargs : Params} {df : List Row} {e days : Int} {y : Rat}
    {m : Rat} {last second_last : Row} {rest : List Row}
    (hm : effMinOptions kwargs = Option.some m)
    (hlen : ¬ (((df.length : Nat) : Rat) < m))
    (hs : sortDaysDesc df = last :: second_last :: rest) :
    ∃ nr : Row,
      extrapolate_late kwargs df e days y = Option.some (df ++ [nr]) ∧
      nr.discount_rate = max 0 (min 0.2 (last.discount_rate +
        ((days - last.days : Int) : Rat) *
          ((last.discount_rate - second_last.discount_rate) /
            ((last.days - second_last.days : Int) : Rat)))) ∧
      nr.reference_price = lateOptField last.reference_price second_last.reference_price
        ((last.days - second_last.days : Int) : Rat) last.days days ∧
      nr.forward_ratio = lateOptField last.forward_ratio second_last.forward_ratio
        ((last.days - second_last.days : Int) : Rat) last.days days := by
  rw [effMinOptions] at hm
  obtain ⟨v, hv, hc⟩ := Option.bind_eq_some.mp hm
  simp only [extrapolate_late, extrapolate_late_with, hv, hc, if_neg hlen, hs]
  exact ⟨_, rfl, rfl, rfl, rfl⟩

theorem dictGet_append_some {kw : Params} {k : String} {v : PVal} (base : Params)
    (h : dictGet kw k = Option.some v) :
    dictGet (base ++ kw) k = Option.some v := by
  induction base with
  | nil => simpa using h
  | cons p rest ih =>
    show dictGet (p :: (rest ++ kw)) k = Option.some v
    rw [dictGet, ih]

theorem dictGet_append_none {kw : Params} {k : String} (base : Params)
    (h : dictGet kw k = Option.none) :
    dictGet (base ++ kw) k = dictGet base k := by
  induction base with
  | nil => simpa using h
  | cons p rest ih =>
    show dictGet (p :: (rest ++ kw)) k = dictGet (p :: rest) k
    rw [dictGet, ih]
    rfl

/-! Concrete tables used to instantiate the general theorems. -/

/-- An observed-origin row with the option-market fields null, as the
extraction pipeline would deliver it. -/
def obsRow (expiry_date days : Int) (years discount_rate : Rat)
    (rp fr : Option (Option Rat)) : Row :=
  { expiry_date := expiry_date, days := days, years := years,
    discount_rate := discount_rate, method := "observed",
    put_strike := Option.none, call_strike := Option.none,
    put_price := Option.none, call_price := Option.none,
    put_iv := Option.none, call_iv := Option.none, iv_diff := Option.none,
    reference_price := rp, forward_ratio := fr }

/-- Row at 10 days with rate 0.02 (test property P1). -/
def demoR10 : Row := obsRow 10 10 (10/365) 0.02 Option.none Option.none

/-- Row at 30 days with rate 0.04 (test property P1). -/
def demoR30 : Row := obsRow 30 30 (30/365) 0.04 Option.none Option.none

/-- The two-row table of test property P1. -/
def demoT : List Row := [demoR10, demoR30]

/-- Numeric evaluation of the interpolation formula at the P1 inputs. -/
theorem rat_eval_interp_demo :
    (0.02 : Rat) + ((20 - 10 : Int) : Rat) / ((30 - 10 : Int) : Rat) * (0.04 - 0.02)
      = 0.03 := by
  norm_num

/-- C1: whenever the table has a row strictly below and a row strictly above
the target `days`, `interpolate_rate` appends exactly one row whose
`discount_rate` is `before.discount_rate + f * (after.discount_rate -
before.discount_rate)` with `f = (days - before.days) / (after.days -
before.days)`, where `before` is a table row of maximal `days` among those
below the target and `after` a table row of minimal `days` among those
above.  Instantiated at the table `{10 ↦ 0.02, 30 ↦ 0.04}` with target 20 by
the witness, giving the appended rate 0.03. -/
theorem interp_linear_correct (df : List Row) (e days : Int) (y : Rat)
    (b a : Row) (bt at' : List Row)
    (hb : sortDaysDesc (df.filter (fun r => r.days < days)) = b :: bt)
    (ha : sortDaysAsc (df.filter (fun r => days < r.days)) = a :: at') :
    (∃ nr : Row,
       interpolate_rate df e days y = df ++ [nr] ∧
       nr.discount_rate = b.discount_rate +
         ((days - b.days : Int) : Rat) / ((a.days - b.days : Int) : Rat) *
           (a.discount_rate - b.discount_rate)) ∧
    b ∈ df ∧ b.days < days ∧ (∀ r ∈ df, r.days < days → r.days ≤ b.days) ∧
    a ∈ df ∧ days < a.days ∧ (∀ r ∈ df, days < r.days → a.days ≤ r.days) := by
  obtain ⟨nr, h1, h2, _, _⟩ := interp_result hb ha
  have hbmem : b ∈ df.filter (fun r => r.days < days) := by
    have : b ∈ b :: bt := List.mem_cons_self b bt
    rw [← hb] at this
    exact mem_sortDaysDesc.mp this
  have hamem : a ∈ df.filter (fun r => days < r.days) := by
    have : a ∈ a :: at' := List.mem_cons_self a at'
    rw [← ha] at this
    exact mem_sortDaysAsc.mp this
  have hbf := List.mem_filter.mp hbmem
  have haf := List.mem_filter.mp hamem
  refine ⟨⟨nr, h1, h2⟩, hbf.1, by simpa using hbf.2, ?_, haf.1, by simpa using haf.2, ?_⟩
  · intro r hr hlt
    exact sortDaysDesc_head_max hb r (List.mem_filter.mpr ⟨hr, by simpa using hlt⟩)
  · intro r hr hlt
    exact sortDaysAsc_head_min ha r (List.mem_filter.mpr ⟨hr, by simpa using hlt⟩)

/-- Witness for C1: at the P1 table the hypotheses hold with `before` the
10-day row and `after` the 30-day row, and the appended rate is exactly
0.03. -/
theorem interp_linear_correct_witness :
    sortDaysDesc (demoT.filter (fun r => r.days < 20)) = [demoR10] ∧
    sortDaysAsc (demoT.filter (fun r => 20 < r.days)) = [demoR30] ∧
    ∃ nr : Row, interpolate_rate demoT 0 20 (20/365) = demoT ++ [nr] ∧
      nr.discount_rate = 0.03 := by
  refine ⟨rfl, rfl, ?_⟩
  obtain ⟨nr, h1, h2⟩ :=
    (interp_linear_correct demoT 0 20 (20/365) demoR10 demoR30 [] [] rfl rfl).1
  exact ⟨nr, h1, h2.trans rat_eval_interp_demo⟩

/-- Numeric fact used to discharge the insufficient-data guard at a one-row
table against the default threshold 2. -/
theorem rat_one_lt_two : ((1 : Nat) : Rat) < 2 := by norm_num

/-- C2: under the insufficient-data condition each operation returns its
input unchanged and no exception escapes.  For `interpolate_rate` the
condition is an empty strictly-below or strictly-above partition; for the
two extrapolators it is a row count below the effective
`min_options_per_expiry` (default 2, middle conjunct), whatever the
requested target point, and the `Option.some` result value records that no
exception is raised on that path. -/
theorem insufficient_data_unchanged :
    (∀ (df : List Row) (e days : Int) (y : Rat),
       df.filter (fun r => r.days < days) = [] ∨
         df.filter (fun r => days < r.days) = [] →
       interpolate_rate df e days y = df) ∧
    effMinOptions [] = Option.some 2 ∧
    (∀ (kwargs : Params) (df : List Row) (e days : Int) (y : Rat) (m : Rat),
       effMinOptions kwargs = Option.some m → ((df.length : Nat) : Rat) < m →
       extrapolate_early kwargs df e days y = Option.some df ∧
       extrapolate_late kwargs df e days y = Option.some df) := by
  refine ⟨?_, rfl, ?_⟩
  · intro df e days y h
    rcases h with h | h
    · simp [interpolate_rate, h, sortDaysDesc]
    · cases hcase : sortDaysDesc (df.filter (fun r => r.days < days)) with
      | nil => simp [interpolate_rate, hcase, h, sortDaysAsc]
      | cons b bt => simp [interpolate_rate, hcase, h, sortDaysAsc]
  · intro kwargs df e days y m hm hlen
    rw [effMinOptions] at hm
    obtain ⟨v, hv, hc⟩ := Option.bind_eq_some.mp hm
    constructor
    · simp [extrapolate_early, extrapolate_early_with, hv, hc, if_pos hlen]
    · simp [extrapolate_late, extrapolate_late_with, hv, hc, if_pos hlen]

/-- Witness for C2: interpolating the P1 table at 5 days (empty below
partition) returns it unchanged, and either extrapolator on a one-row table
under the default threshold 2 returns it unchanged, at arbitrary target
points on either side. -/
theorem insufficient_data_unchanged_witness :
    (demoT.filter (fun r => r.days < 5) = [] ∧
       interpolate_rate demoT 0 5 (5/365) = demoT) ∧
    effMinOptions [] = Option.some 2 ∧
    (([demoR10].length : Nat) : Rat) < 2 ∧
    extrapolate_early [] [demoR10] 0 5 (5/365) = Option.some [demoR10] ∧
    extrapolate_late [] [demoR10] 0 900 (900/365) = Option.some [demoR10] := by
  refine ⟨⟨rfl, insufficient_data_unchanged.1 demoT 0 5 (5/365) (Or.inl rfl)⟩,
    insufficient_data_unchanged.2.1, rat_one_lt_two, ?_, ?_⟩
  · exact (insufficient_data_unchanged.2.2 [] [demoR10] 0 5 (5/365) 2
      insufficient_data_unchanged.2.1 rat_one_lt_two).1
  · exact (insufficient_data_unchanged.2.2 [] [demoR10] 0 900 (900/365) 2
      insufficient_data_unchanged.2.1 rat_one_lt_two).2

/-- Presence of an interpolated optional column: absent exactly when it is
absent on one of the two basis rows; a present null cell does not make the
result absent. -/
theorem interpOptField_eq_none (x y : Option (Option Rat)) (f : Rat) :
    interpOptField x y f = Option.none ↔ x = Option.none ∨ y = Option.none := by
  cases x with
  | none => simp [interpOptField]
  | some xv =>
    cases y with
    | none => simp [interpOptField]
    | some yv => cases xv <;> cases yv <;> simp [interpOptField]

/-- Presence of a backward-extrapolated optional column mirrors
`interpOptField_eq_none`. -/
theorem earlyOptField_eq_none (x y : Option (Option Rat)) (d : Rat) (fd days : Int) :
    earlyOptField x y d fd days = Option.none ↔
      x = Option.none ∨ y = Option.none := by
  cases x with
  | none => simp [earlyOptField]
  | some xv =>
    cases y with
    | none => simp [earlyOptField]
    | some yv => cases xv <;> cases yv <;> simp [earlyOptField]

/-- Presence of a forward-extrapolated optional column mirrors
`interpOptField_eq_none`. -/
theorem lateOptField_eq_none (x y : Option (Option Rat)) (d : Rat) (ld days : Int) :
    lateOptField x y d ld days = Option.none ↔
      x = Option.none ∨ y = Option.none := by
  cases x with
  | none => simp [lateOptField]
  | some xv =>
    cases y with
    | none => simp [lateOptField, pymax]
    | some yv => cases xv <;> cases yv <;> simp [lateOptField, pymax]

/-- Row at 10 days whose `reference_price` column holds 100 and whose
`forward_ratio` column is absent. -/
def nullR10 : Row :=
  obsRow 10 10 (10/365) 0.02 (Option.some (Option.some 100)) Option.none

/-- Row at 30 days whose `reference_price` column is present but null and
whose `forward_ratio` column holds 2. -/
def nullR30 : Row :=
  obsRow 30 30 (30/365) 0.04 (Option.some Option.none) (Option.some (Option.some 2))

/-- Table mixing a present value, a present null, and an absent optional
column across its two rows. -/
def nullT : List Row := [nullR10, nullR30]

/-- C3 counterexample: the 30-day basis row's `reference_price` is present
but null, so the claim requires the synthesized row to carry no
`reference_price` at all; the code tests only column presence (lines 47 and
50 of `interpolation.py`), the null propagates through the arithmetic, and
the appended row carries a present null `reference_price`. -/
theorem optional_field_null_cex :
    nullR10.reference_price = Option.some (Option.some 100) ∧
    nullR30.reference_price = Option.some Option.none ∧
    (interpolate_rate nullT 0 20 (20/365)).length = nullT.length + 1 ∧
    ((interpolate_rate nullT 0 20 (20/365)).getLastD nullR10).reference_price
      = Option.some Option.none :=
  ⟨rfl, rfl, rfl, rfl⟩

/-- C3 amended: a synthesized row carries `reference_price` (respectively
`forward_ratio`) exactly when the column is present on both basis rows;
presence alone is tested, and a present null value is not screened out —
it propagates into the synthesized value instead of making the field
absent. -/
theorem optional_field_presence :
    (∀ (df : List Row) (e days : Int) (y : Rat) (b a : Row) (bt at' : List Row),
       sortDaysDesc (df.filter (fun r => r.days < days)) = b :: bt →
       sortDaysAsc (df.filter (fun r => days < r.days)) = a :: at' →
       ∃ nr : Row, interpolate_rate df e days y = df ++ [nr] ∧
         (nr.reference_price = Option.none ↔
           (b.reference_price = Option.none ∨ a.reference_price = Option.none)) ∧
         (nr.forward_ratio = Option.none ↔
           (b.forward_ratio = Option.none ∨ a.forward_ratio = Option.none))) ∧
    (∀ (kwargs : Params) (df : List Row) (e days : Int) (y : Rat) (m : Rat)
       (first second : Row) (rest : List Row),
       effMinOptions kwargs = Option.some m → ¬ (((df.length : Nat) : Rat) < m) →
       sortDaysAsc df = first :: second :: rest →
       ∃ nr : Row, extrapolate_early kwargs df e days y = Option.some (df ++ [nr]) ∧
         (nr.reference_price = Option.none ↔
           (first.reference_price = Option.none ∨
             second.reference_price = Option.none)) ∧
         (nr.forward_ratio = Option.none ↔
           (first.forward_ratio = Option.none ∨
             second.forward_ratio = Option.none))) ∧
    (∀ (kwargs : Params) (df : List Row) (e days : Int) (y : Rat) (m : Rat)
       (last second_last : Row) (rest : List Row),
       effMinOptions kwargs = Option.some m → ¬ (((df.length : Nat) : Rat) < m) →
       sortDaysDesc df = last :: second_last :: rest →
       ∃ nr : Row, extrapolate_late kwargs df e days y = Option.some (df ++ [nr]) ∧
         (nr.reference_price = Option.none ↔
           (last.reference_price = Option.none ∨
             second_last.reference_price = Option.none)) ∧
         (nr.forward_ratio = Option.none ↔
           (last.forward_ratio = Option.none ∨
             second_last.forward_ratio = Option.none))) := by
  refine ⟨?_, ?_, ?_⟩
  · intro df e days y b a bt at' hb ha
    obtain ⟨nr, h1, _, hrp, hfr⟩ := interp_result hb ha
    exact ⟨nr, h1, by rw [hrp]; exact interpOptField_eq_none _ _ _,
      by rw [hfr]; exact interpOptField_eq_none _ _ _⟩
  · intro kwargs df e days y m first second rest hm hlen hs
    obtain ⟨nr, h1, _, hrp, hfr⟩ := early_result hm hlen hs
    exact ⟨nr, h1, by rw [hrp]; exact earlyOptField_eq_none _ _ _ _ _,
      by rw [hfr]; exact earlyOptField_eq_none _ _ _ _ _⟩
  · intro kwargs df e days y m last second_last rest hm hlen hs
    obtain ⟨nr, h1, _, hrp, hfr⟩ := late_result hm hlen hs
    exact ⟨nr, h1, by rw [hrp]; exact lateOptField_eq_none _ _ _ _ _,
      by rw [hfr]; exact lateOptField_eq_none _ _ _ _ _⟩

/-- Numeric fact used to discharge the extrapolator guard at a two-row table
against the default threshold 2. -/
theorem rat_two_not_lt_two : ¬ (((2 : Nat) : Rat) < 2) := by norm_num

/-- Witness for the amended C3 at `nullT`: in all three operations the
synthesized row omits `forward_ratio` (absent on the 10-day basis row) but
carries `reference_price` (present on both basis rows, although null on one
of them). -/
theorem optional_field_presence_witness :
    sortDaysDesc (nullT.filter (fun r => r.days < 20)) = [nullR10] ∧
    sortDaysAsc (nullT.filter (fun r => 20 < r.days)) = [nullR30] ∧
    effMinOptions [] = Option.some 2 ∧ ¬ (((nullT.length : Nat) : Rat) < 2) ∧
    sortDaysAsc nullT = [nullR10, nullR30] ∧
    sortDaysDesc nullT = [nullR30, nullR10] ∧
    (∃ nr : Row, interpolate_rate nullT 0 20 (20/365) = nullT ++ [nr] ∧
       nr.forward_ratio = Option.none ∧ nr.reference_price ≠ Option.none) ∧
    (∃ nr : Row, extrapolate_early [] nullT 0 5 (5/365) = Option.some (nullT ++ [nr]) ∧
       nr.forward_ratio = Option.none ∧ nr.reference_price ≠ Option.none) ∧
    (∃ nr : Row, extrapolate_late [] nullT 0 900 (900/365) = Option.some (nullT ++ [nr]) ∧
       nr.forward_ratio = Option.none ∧ nr.reference_price ≠ Option.none) := by
  refine ⟨rfl, rfl, rfl, rat_two_not_lt_two, rfl, rfl, ?_, ?_, ?_⟩
  · obtain ⟨nr, h1, hrp, hfr⟩ :=
      optional_field_presence.1 nullT 0 20 (20/365) nullR10 nullR30 [] [] rfl rfl
    refine ⟨nr, h1, hfr.mpr (Or.inl rfl), fun hc => ?_⟩
    rcases hrp.mp hc with h | h <;> exact Option.noConfusion h
  · obtain ⟨nr, h1, hrp, hfr⟩ :=
      optional_field_presence.2.1 [] nullT 0 5 (5/365) 2 nullR10 nullR30 []
        rfl rat_two_not_lt_two rfl
    refine ⟨nr, h1, hfr.mpr (Or.inl rfl), fun hc => ?_⟩
    rcases hrp.mp hc with h | h <;> exact Option.noConfusion h
  · obtain ⟨nr, h1, hrp, hfr⟩ :=
      optional_field_presence.2.2 [] nullT 0 900 (900/365) 2 nullR30 nullR10 []
        rfl rat_two_not_lt_two rfl
    refine ⟨nr, h1, hfr.mpr (Or.inr rfl), fun hc => ?_⟩
    rcases hrp.mp hc with h | h <;> exact Option.noConfusion h

/-- First of two distinct rows sharing `days = 10`. -/
def dupR1 : Row := obsRow 1 10 (10/365) 0.02 Option.none Option.none

/-- Second of two distinct rows sharing `days = 10`. -/
def dupR2 : Row := obsRow 2 10 (10/365) 0.05 Option.none Option.none

/-- Table whose two rows share the same `days` value. -/
def dupT : List Row := [dupR1, dupR2]

/-- C4 counterexample: the claim asserts the days-difference denominator of
the two extrapolators is never zero, but on the duplicate-`days` table
`dupT` (two distinct rows both at 10 days) both anchor rows share the same
`days`, and both the `extrapolate_early` denominator of line 115 and the
`extrapolate_late` denominator of line 200 are exactly zero. -/
theorem degenerate_gap_cex :
    dupR1.days = dupR2.days ∧ dupR1 ≠ dupR2 ∧
    earlyAnchorGap dupT = Option.some 0 ∧ lateAnchorGap dupT = Option.some 0 := by
  refine ⟨rfl, ?_, rfl, rfl⟩
  intro h
  exact absurd (congrArg Row.expiry_date h) (by decide)

/-- C4 amended: the degenerate zero-width gap belongs to the extrapolators,
not to interpolation.  The interpolation neighbours always satisfy
`before.days < days < after.days` (they come from the two strict
partitions), so the line-41 denominator is strictly positive whenever it is
evaluated — duplicate `days` values cannot make it zero; by contrast both
extrapolator denominators are zero on the duplicate-`days` table `dupT`. -/
theorem degenerate_gap_location (df : List Row) (days : Int) (b a : Row)
    (bt at' : List Row)
    (hb : sortDaysDesc (df.filter (fun r => r.days < days)) = b :: bt)
    (ha : sortDaysAsc (df.filter (fun r => days < r.days)) = a :: at') :
    b.days < days ∧ days < a.days ∧ 0 < a.days - b.days ∧
    interpAnchorGap df days = Option.some (a.days - b.days) ∧
    earlyAnchorGap dupT = Option.some 0 ∧ lateAnchorGap dupT = Option.some 0 := by
  have hbmem : b ∈ df.filter (fun r => r.days < days) := by
    have : b ∈ b :: bt := List.mem_cons_self b bt
    rw [← hb] at this
    exact mem_sortDaysDesc.mp this
  have hamem : a ∈ df.filter (fun r => days < r.days) := by
    have : a ∈ a :: at' := List.mem_cons_self a at'
    rw [← ha] at this
    exact mem_sortDaysAsc.mp this
  have hblt : b.days < days := by simpa using (List.mem_filter.mp hbmem).2
  have halt : days < a.days := by simpa using (List.mem_filter.mp hamem).2
  refine ⟨hblt, halt, by omega, ?_, rfl, rfl⟩
  simp only [interpAnchorGap, hb, ha]

/-- Witness for the amended C4: at the P1 table with target 20 the
interpolation denominator is the strictly positive 20. -/
theorem degenerate_gap_location_witness :
    sortDaysDesc (demoT.filter (fun r => r.days < 20)) = [demoR10] ∧
    sortDaysAsc (demoT.filter (fun r => 20 < r.days)) = [demoR30] ∧
    interpAnchorGap demoT 20 = Option.some 20 ∧ (0 : Int) < 20 := by
  obtain ⟨_, _, hpos, hgap, _, _⟩ :=
    degenerate_gap_location demoT 20 demoR10 demoR30 [] [] rfl rfl
  exact ⟨rfl, rfl, hgap, hpos⟩

/-- Row at 300 days, rate 0.05, reference price 105, forward ratio 1 (the
`second_last` anchor of P4/P5). -/
def lateR300 : Row :=
  obsRow 300 300 (300/365) 0.05 (Option.some (Option.some 105))
    (Option.some (Option.some 1))

/-- Row at 365 days, rate 0.18, reference price 100, forward ratio 2 (the
`last` anchor of P4/P5). -/
def lateR365 : Row :=
  obsRow 365 365 1 0.18 (Option.some (Option.some 100))
    (Option.some (Option.some 2))

/-- The two-row table of test properties P4 and P5. -/
def lateT : List Row := [lateR300, lateR365]

/-- C5: on a table of at least two rows (with distinct anchor `days`, per
the §3 uniqueness invariant — a zero gap would leave the rational model),
`extrapolate_late` appends one row whose rate is the forward linear
projection from the highest-days row, clamped into the fixed band
`[0, 0.2]`.  The witness instantiates P4: anchors `{300 ↦ 0.05}` and
`{365 ↦ 0.18}` at target 730 give exactly 0.2. -/
theorem late_extrapolation_formula (df : List Row) (e days : Int) (y : Rat)
    (last second_last : Row) (rest : List Row)
    (hs : sortDaysDesc df = last :: second_last :: rest)
    (_hne : second_last.days ≠ last.days) :
    ∃ nr : Row, extrapolate_late [] df e days y = Option.some (df ++ [nr]) ∧
      nr.discount_rate = max 0 (min 0.2 (last.discount_rate +
        ((days - last.days : Int) : Rat) *
          ((last.discount_rate - second_last.discount_rate) /
            ((last.days - second_last.days : Int) : Rat)))) ∧
      0 ≤ nr.discount_rate ∧ nr.discount_rate ≤ 0.2 ∧
      last ∈ df ∧ second_last ∈ df ∧
      (∀ r ∈ df, r.days ≤ last.days) ∧ (∀ r ∈ rest, r.days ≤ second_last.days) := by
  have hlen2 : 2 ≤ df.length := by
    have hl := length_sortDaysDesc df
    rw [hs] at hl
    simp at hl
    omega
  have hlen : ¬ (((df.length : Nat) : Rat) < 2) := by
    have : (2 : Rat) ≤ ((df.length : Nat) : Rat) := by exact_mod_cast hlen2
    exact not_lt.mpr this
  obtain ⟨nr, h1, h2, _, _⟩ :=
    late_result (rfl : effMinOptions [] = Option.some 2) hlen hs
  have hp := pairwise_sortDaysDesc df
  rw [hs] at hp
  refine ⟨nr, h1, h2, ?_, ?_, ?_, ?_, sortDaysDesc_head_max hs, ?_⟩
  · rw [h2]; exact le_max_left _ _
  · rw [h2]; exact max_le (by norm_num) (min_le_left _ _)
  · exact mem_sortDaysDesc.mp (hs ▸ List.mem_cons_self _ _)
  · exact mem_sortDaysDesc.mp
      (hs ▸ List.mem_cons_of_mem _ (List.mem_cons_self _ _))
  · exact (List.pairwise_cons.mp (List.pairwise_cons.mp hp).2).1

/-- Numeric evaluation of the late-extrapolation clamp at the P4 inputs. -/
theorem rat_eval_late_demo :
    max 0 (min (0.2 : Rat) (0.18 + ((730 - 365 : Int) : Rat) *
      ((0.18 - 0.05) / ((365 - 300 : Int) : Rat)))) = 0.2 := by
  norm_num

/-- Witness for C5 at the P4 table: the raw projection 0.91 is clamped to
exactly 0.2. -/
theorem late_extrapolation_formula_witness :
    sortDaysDesc lateT = [lateR365, lateR300] ∧
    lateR300.days ≠ lateR365.days ∧
    ∃ nr : Row, extrapolate_late [] lateT 0 730 2 = Option.some (lateT ++ [nr]) ∧
      nr.discount_rate = 0.2 := by
  refine ⟨rfl, by decide, ?_⟩
  obtain ⟨nr, h1, h2, _⟩ :=
    late_extrapolation_formula lateT 0 730 2 lateR365 lateR300 [] rfl (by decide)
  exact ⟨nr, h1, h2.trans rat_eval_late_demo⟩

/-- Row at 10 days, rate 0.01, reference price 5, forward ratio 1 (the
`first` anchor of the P3-style witness). -/
def earlyR10 : Row :=
  obsRow 10 10 (10/365) 0.01 (Option.some (Option.some 5))
    (Option.some (Option.some 1))

/-- Row at 20 days, rate 0.03, reference price 100, forward ratio 0.5 (the
`second` anchor of the P3-style witness). -/
def earlyR20 : Row :=
  obsRow 20 20 (20/365) 0.03 (Option.some (Option.some 100))
    (Option.some (Option.some 0.5))

/-- The two-row table of the P3-style witness, listed out of `days` order on
purpose (the operation sorts it). -/
def earlyT : List Row := [earlyR20, earlyR10]

/-- C6: on a table of at least two rows (distinct anchor `days` as in C5),
`extrapolate_early` appends one row whose rate is the backward linear
projection from the lowest-days row floored at 0 with no ceiling — a
negative raw projection yields exactly 0 — and applies the same projection
with the same floor, independently, to `reference_price` and
`forward_ratio` when both anchors carry the column with a number. -/
theorem early_extrapolation_formula (df : List Row) (e days : Int) (y : Rat)
    (first second : Row) (rest : List Row)
    (hs : sortDaysAsc df = first :: second :: rest)
    (_hne : first.days ≠ second.days) :
    ∃ nr : Row, extrapolate_early [] df e days y = Option.some (df ++ [nr]) ∧
      nr.discount_rate = max 0 (first.discount_rate -
        ((first.days - days : Int) : Rat) *
          ((second.discount_rate - first.discount_rate) /
            ((second.days - first.days : Int) : Rat))) ∧
      0 ≤ nr.discount_rate ∧
      (first.discount_rate - ((first.days - days : Int) : Rat) *
          ((second.discount_rate - first.discount_rate) /
            ((second.days - first.days : Int) : Rat)) < 0 →
        nr.discount_rate = 0) ∧
      (∀ x z : Rat, first.reference_price = Option.some (Option.some x) →
         second.reference_price = Option.some (Option.some z) →
         nr.reference_price = Option.some (Option.some (max 0 (x -
           ((first.days - days : Int) : Rat) *
             ((z - x) / ((second.days - first.days : Int) : Rat)))))) ∧
      (∀ x z : Rat, first.forward_ratio = Option.some (Option.some x) →
         second.forward_ratio = Option.some (Option.some z) →
         nr.forward_ratio = Option.some (Option.some (max 0 (x -
           ((first.days - days : Int) : Rat) *
             ((z - x) / ((second.days - first.days : Int) : Rat)))))) ∧
      first ∈ df ∧ second ∈ df ∧
      (∀ r ∈ df, first.days ≤ r.days) ∧ (∀ r ∈ rest, second.days ≤ r.days) := by
  have hlen2 : 2 ≤ df.length := by
    have hl := length_sortDaysAsc df
    rw [hs] at hl
    simp at hl
    omega
  have hlen : ¬ (((df.length : Nat) : Rat) < 2) := by
    have : (2 : Rat) ≤ ((df.length : Nat) : Rat) := by exact_mod_cast hlen2
    exact not_lt.mpr this
  obtain ⟨nr, h1, h2, hrp, hfr⟩ :=
    early_result (rfl : effMinOptions [] = Option.some 2) hlen hs
  have hp := pairwise_sortDaysAsc df
  rw [hs] at hp
  refine ⟨nr, h1, h2, ?_, ?_, ?_, ?_, ?_, ?_, sortDaysAsc_head_min hs, ?_⟩
  · rw [h2]; exact le_max_left _ _
  · intro hneg
    rw [h2]
    exact max_eq_left (le_of_lt hneg)
  · intro x z hx hz
    rw [hrp, hx, hz]
    simp [earlyOptField, pymax]
  · intro x z hx hz
    rw [hfr, hx, hz]
    simp [earlyOptField, pymax]
  · exact mem_sortDaysAsc.mp (hs ▸ List.mem_cons_self _ _)
  · exact mem_sortDaysAsc.mp
      (hs ▸ List.mem_cons_of_mem _ (List.mem_cons_self _ _))
  · exact (List.pairwise_cons.mp (List.pairwise_cons.mp hp).2).1

/-- The raw backward rate projection at the P3-style inputs is negative. -/
theorem rat_eval_early_demo_neg :
    (0.01 : Rat) - ((10 - 0 : Int) : Rat) *
      ((0.03 - 0.01) / ((20 - 10 : Int) : Rat)) < 0 := by
  norm_num

/-- The backward `reference_price` projection at the P3-style inputs floors
at 0. -/
theorem rat_eval_early_demo_rp :
    max 0 ((5 : Rat) - ((10 - 0 : Int) : Rat) *
      ((100 - 5) / ((20 - 10 : Int) : Rat))) = 0 := by
  norm_num

/-- Witness for C6 at the P3-style table: the negative raw projection is
floored to exactly 0, and so is the `reference_price` projection. -/
theorem early_extrapolation_formula_witness :
    sortDaysAsc earlyT = [earlyR10, earlyR20] ∧
    earlyR10.days ≠ earlyR20.days ∧
    ∃ nr : Row, extrapolate_early [] earlyT 0 0 0 = Option.some (earlyT ++ [nr]) ∧
      nr.discount_rate = 0 ∧ nr.reference_price = Option.some (Option.some 0) := by
  refine ⟨rfl, by decide, ?_⟩
  obtain ⟨nr, h1, _, _, hneg, hrp, _⟩ :=
    early_extrapolation_formula earlyT 0 0 0 earlyR10 earlyR20 [] rfl (by decide)
  exact ⟨nr, h1, hneg rat_eval_early_demo_neg,
    (hrp 5 100 rfl rfl).trans
      (congrArg (fun v => Option.some (Option.some v)) rat_eval_early_demo_rp)⟩

/-- C7: in `extrapolate_late`, whenever both anchors carry `reference_price`
(respectively `forward_ratio`) with a number, the synthesized value is the
forward linear projection clamped only from below at the `last` row's value:
it never falls below the most recent observed value and has no upper
clamp. -/
theorem late_field_floor (df : List Row) (e days : Int) (y : Rat)
    (last second_last : Row) (rest : List Row)
    (hs : sortDaysDesc df = last :: second_last :: rest)
    (_hne : second_last.days ≠ last.days) :
    ∃ nr : Row, extrapolate_late [] df e days y = Option.some (df ++ [nr]) ∧
      (∀ x z : Rat, last.reference_price = Option.some (Option.some x) →
         second_last.reference_price = Option.some (Option.some z) →
         nr.reference_price = Option.some (Option.some (max x (x +
           ((days - last.days : Int) : Rat) *
             ((x - z) / ((last.days - second_last.days : Int) : Rat))))) ∧
         ∀ v : Rat, nr.reference_price = Option.some (Option.some v) → x ≤ v) ∧
      (∀ x z : Rat, last.forward_ratio = Option.some (Option.some x) →
         second_last.forward_ratio = Option.some (Option.some z) →
         nr.forward_ratio = Option.some (Option.some (max x (x +
           ((days - last.days : Int) : Rat) *
             ((x - z) / ((last.days - second_last.days : Int) : Rat))))) ∧
         ∀ v : Rat, nr.forward_ratio = Option.some (Option.some v) → x ≤ v) := by
  have hlen2 : 2 ≤ df.length := by
    have hl := length_sortDaysDesc df
    rw [hs] at hl
    simp at hl
    omega
  have hlen : ¬ (((df.length : Nat) : Rat) < 2) := by
    have : (2 : Rat) ≤ ((df.length : Nat) : Rat) := by exact_mod_cast hlen2
    exact not_lt.mpr this
  obtain ⟨nr, h1, _, hrp, hfr⟩ :=
    late_result (rfl : effMinOptions [] = Option.some 2) hlen hs
  refine ⟨nr, h1, ?_, ?_⟩
  · intro x z hx hz
    have hval : nr.reference_price = Option.some (Option.some (max x (x +
        ((days - last.days : Int) : Rat) *
          ((x - z) / ((last.days - second_last.days : Int) : Rat))))) := by
      rw [hrp, hx, hz]
      simp [lateOptField, pymax]
    refine ⟨hval, ?_⟩
    intro v hv
    rw [hval] at hv
    have := Option.some.inj (Option.some.inj hv)
    rw [← this]
    exact le_max_left _ _
  · intro x z hx hz
    have hval : nr.forward_ratio = Option.some (Option.some (max x (x +
        ((days - last.days : Int) : Rat) *
          ((x - z) / ((last.days - second_last.days : Int) : Rat))))) := by
      rw [hfr, hx, hz]
      simp [lateOptField, pymax]
    refine ⟨hval, ?_⟩
    intro v hv
    rw [hval] at hv
    have := Option.some.inj (Option.some.inj hv)
    rw [← this]
    exact le_max_left _ _

/-- The declining `reference_price` projection at the P5 inputs is floored
at the last observed value 100. -/
theorem rat_eval_late_demo_rp :
    max (100 : Rat) (100 + ((430 - 365 : Int) : Rat) *
      ((100 - 105) / ((365 - 300 : Int) : Rat))) = 100 := by
  norm_num

/-- The growing `forward_ratio` projection at the P5 inputs passes through
unclamped. -/
theorem rat_eval_late_demo_fr :
    max (2 : Rat) (2 + ((430 - 365 : Int) : Rat) *
      ((2 - 1) / ((365 - 300 : Int) : Rat))) = 3 := by
  norm_num

/-- Witness for C7 at the P5 table with target 430: the `reference_price`
projection 95 is floored to the last observed 100, while the growing
`forward_ratio` projection 3 passes through. -/
theorem late_field_floor_witness :
    sortDaysDesc lateT = [lateR365, lateR300] ∧
    lateR300.days ≠ lateR365.days ∧
    ∃ nr : Row,
      extrapolate_late [] lateT 0 430 (430/365) = Option.some (lateT ++ [nr]) ∧
      nr.reference_price = Option.some (Option.some 100) ∧
      nr.forward_ratio = Option.some (Option.some 3) := by
  refine ⟨rfl, by decide, ?_⟩
  obtain ⟨nr, h1, hrp, hfr⟩ :=
    late_field_floor lateT 0 430 (430/365) lateR365 lateR300 [] rfl (by decide)
  exact ⟨nr, h1,
    (hrp 100 105 rfl rfl).1.trans
      (congrArg (fun v => Option.some (Option.some v)) rat_eval_late_demo_rp),
    (hfr 2 1 rfl rfl).1.trans
      (congrArg (fun v => Option.some (Option.some v)) rat_eval_late_demo_fr)⟩

/-- C8: no operation ever deletes, edits or reorders an existing row: the
result (when a table is returned at all — `Option.none` is the modelled
exception escape of the extrapolators) is the input rows in their original
order, either unchanged or with exactly one appended row; as pure functions
on table values, the operations cannot mutate the caller's table in
place. -/
theorem frame_append_only (df : List Row) (e days : Int) (y : Rat)
    (kwargs : Params) :
    (interpolate_rate df e days y = df ∨
       ∃ nr : Row, interpolate_rate df e days y = df ++ [nr]) ∧
    (extrapolate_early kwargs df e days y = Option.none ∨
       extrapolate_early kwargs df e days y = Option.some df ∨
       ∃ nr : Row, extrapolate_early kwargs df e days y = Option.some (df ++ [nr])) ∧
    (extrapolate_late kwargs df e days y = Option.none ∨
       extrapolate_late kwargs df e days y = Option.some df ∨
       ∃ nr : Row, extrapolate_late kwargs df e days y = Option.some (df ++ [nr])) := by
  refine ⟨?_, ?_, ?_⟩
  · cases hb : sortDaysDesc (df.filter (fun r => r.days < days)) with
    | nil => exact Or.inl (by simp [interpolate_rate, hb])
    | cons b bt =>
      cases ha : sortDaysAsc (df.filter (fun r => days < r.days)) with
      | nil => exact Or.inl (by simp [interpolate_rate, hb, ha])
      | cons a at' =>
        obtain ⟨nr, h1, -, -, -⟩ := interp_result hb ha
        exact Or.inr ⟨nr, h1⟩
  · simp only [extrapolate_early, extrapolate_early_with]
    repeat' split
    all_goals first
      | exact Or.inl rfl
      | exact Or.inr (Or.inl rfl)
      | exact Or.inr (Or.inr ⟨_, rfl⟩)
  · simp only [extrapolate_late, extrapolate_late_with]
    repeat' split
    all_goals first
      | exact Or.inl rfl
      | exact Or.inr (Or.inl rfl)
      | exact Or.inr (Or.inr ⟨_, rfl⟩)

/-- C9: the extrapolators read the configuration only through
`min_options_per_expiry`: two override mappings that agree on that key —
whatever their other, ignored keys — produce identical results; a
caller-supplied binding takes precedence over the defaults, and with no
caller binding the documented default `2` is in force. -/
theorem config_min_options_only (kw1 kw2 : Params) (df : List Row)
    (e days : Int) (y : Rat)
    (h : dictGet kw1 "min_options_per_expiry"
       = dictGet kw2 "min_options_per_expiry") :
    extrapolate_early kw1 df e days y = extrapolate_early kw2 df e days y ∧
    extrapolate_late kw1 df e days y = extrapolate_late kw2 df e days y ∧
    (∀ v : PVal, dictGet kw1 "min_options_per_expiry" = Option.some v →
       dictGet (dictUpdate (dictCopy DEFAULT_PARAMS) kw1) "min_options_per_expiry"
         = Option.some v) ∧
    (dictGet kw1 "min_options_per_expiry" = Option.none →
       dictGet (dictUpdate (dictCopy DEFAULT_PARAMS) kw1) "min_options_per_expiry"
         = Option.some (PVal.int 2)) := by
  have key : dictGet (dictUpdate (dictCopy DEFAULT_PARAMS) kw1) "min_options_per_expiry"
      = dictGet (dictUpdate (dictCopy DEFAULT_PARAMS) kw2) "min_options_per_expiry" := by
    show dictGet (DEFAULT_PARAMS ++ kw1) "min_options_per_expiry"
        = dictGet (DEFAULT_PARAMS ++ kw2) "min_options_per_expiry"
    cases hc : dictGet kw2 "min_options_per_expiry" with
    | none => rw [dictGet_append_none _ (h.trans hc), dictGet_append_none _ hc]
    | some v => rw [dictGet_append_some _ (h.trans hc), dictGet_append_some _ hc]
  refine ⟨?_, ?_, ?_, ?_⟩
  · simp only [extrapolate_early, extrapolate_early_with, dictUpdate, dictCopy] at key ⊢
    rw [key]
  · simp only [extrapolate_late, extrapolate_late_with, dictUpdate, dictCopy] at key ⊢
    rw [key]
  · intro v hv
    show dictGet (DEFAULT_PARAMS ++ kw1) "min_options_per_expiry" = Option.some v
    exact dictGet_append_some _ hv
  · intro hn
    show dictGet (DEFAULT_PARAMS ++ kw1) "min_options_per_expiry"
        = Option.some (PVal.int 2)
    rw [dictGet_append_none _ hn]
    rfl

/-- Overrides carrying a caller threshold of 3 plus a key unknown to the
configuration. -/
def kwDemo1 : Params :=
  [("min_options_per_expiry", PVal.int 3), ("unknown_key", PVal.int 9)]

/-- Overrides carrying only the caller threshold of 3. -/
def kwDemo2 : Params := [("min_options_per_expiry", PVal.int 3)]

/-- Witness for C9: the two override mappings agree on the threshold key
(one of them also carries an unrecognized key), the extrapolators give
identical results under them, and the caller's 3 supersedes the default
2. -/
theorem config_min_options_only_witness :
    dictGet kwDemo1 "min_options_per_expiry"
      = dictGet kwDemo2 "min_options_per_expiry" ∧
    extrapolate_early kwDemo1 demoT 0 5 (5/365)
      = extrapolate_early kwDemo2 demoT 0 5 (5/365) ∧
    extrapolate_late kwDemo1 demoT 0 5 (5/365)
      = extrapolate_late kwDemo2 demoT 0 5 (5/365) ∧
    dictGet (dictUpdate (dictCopy DEFAULT_PARAMS) kwDemo1) "min_options_per_expiry"
      = Option.some (PVal.int 3) := by
  obtain ⟨he, hl, hprec, -⟩ :=
    config_min_options_only kwDemo1 kwDemo2 demoT 0 5 (5/365) rfl
  exact ⟨rfl, he, hl, hprec (PVal.int 3) rfl⟩

/-- C10: no extrapolator call mutates the module-level `DEFAULT_PARAMS`
dictionary: each call overlays its overrides on a fresh copy (lines 103–104
and 188–189), so the module state is preserved across every call, any
sequence of calls with arbitrary overrides leaves `DEFAULT_PARAMS`
unchanged, and each call's result is a function of the pristine defaults
and its own arguments only. -/
theorem default_params_never_mutated :
    (∀ (st : ConfigState) (c : ExtrapCall), (applyCall st c).2 = st) ∧
    (∀ cs : List ExtrapCall,
       runCalls ⟨DEFAULT_PARAMS⟩ cs = (⟨DEFAULT_PARAMS⟩ : ConfigState)) ∧
    (∀ (st : ConfigState) (c : ExtrapCall), (applyCall st c).1 =
       if c.early then
         extrapolate_early_with st.defaults c.kwargs c.df c.expiry_date c.days c.years
       else
         extrapolate_late_with st.defaults c.kwargs c.df c.expiry_date c.days c.years) := by
  have hst : ∀ (st : ConfigState) (c : ExtrapCall), (applyCall st c).2 = st := by
    intro st c
    by_cases hc : c.early <;>
      simp [applyCall, extrapolate_early_call, extrapolate_late_call, hc]
  refine ⟨hst, ?_, ?_⟩
  · intro cs
    induction cs with
    | nil => rfl
    | cons c cs ih =>
      rw [runCalls, hst]
      exact ih
  · intro st c
    by_cases hc : c.early <;>
      simp [applyCall, extrapolate_early_call, extrapolate_late_call, hc]

end VolDiscount
